import Mathlib

/-!
Verification of the C function-definition recognizer in `src/src/parsercfc.py`.

The file shallowly embeds the per-file pipeline of the tool: macro-definition
parsing (`parse_macro_definitions`), macro-body tokenization and
classification (`tokenize_macro_body`, `extract_function_name_template`,
`extract_macro_expansion_parts`), the macro-argument parser
(`parse_macro_args`), name rendering (`build_arg_map`, `render_macro_name`),
the definition scanner (`scan_function_definitions`), and the name-list
merger (`resolve_function_list`).

Modelling conventions:
* a position in the Python text is represented by the remaining suffix of
  the character list; "advance `i` to `k`" becomes "replace the suffix";
* Python's `str.isspace`/`str.isalpha`/`str.isalnum` are modelled by their
  ASCII restrictions (`pySpace`, `Char.isAlpha`, `Char.isAlphanum`); the
  regex character classes `[A-Za-z_]`/`[A-Za-z0-9_]` are ASCII in Python as
  well, so for those the model is exact;
* the `while` loops are written as fuel-indexed recursions; the top-level
  wrappers supply one unit of fuel per character, which is enough because
  every loop iteration of the source advances the cursor by at least one
  character;
* Python `dict`s that are only ever read through `.get` are modelled as
  functions built by repeated update, and the `set` of used macro names is
  modelled as a duplicate-free list.
-/

/-- Brace characters, bound to names so that the scanner can compare against
them without mentioning brace literals. -/
def lbrace : Char := Char.ofNat 123

/-- Closing brace character. -/
def rbrace : Char := Char.ofNat 125

/-- Single-quote character. -/
def squote : Char := Char.ofNat 39

/-- Double-quote character. -/
def dquote : Char := Char.ofNat 34

/-- Backslash character. -/
def bslash : Char := Char.ofNat 92

/-- ASCII model of Python's `str.isspace` and of the regex class `\s`. -/
def pySpace (c : Char) : Bool :=
  c = ' ' || c = '\t' || c = '\n' || c = '\x0b' || c = '\x0c' || c = '\r'

/-- The characters skipped by the preprocessor-line lookahead (`" \t"`). -/
def spaceTab (c : Char) : Bool := c = ' ' || c = '\t'

/-- First character of an identifier: the source's `c.isalpha() or c == "_"`,
and exactly the regex class `[A-Za-z_]`. -/
def identStart (c : Char) : Bool := c.isAlpha || c = '_'

/-- Continuation character of an identifier: `c.isalnum() or c == "_"`,
and exactly the regex class `[A-Za-z0-9_]`. -/
def identCont (c : Char) : Bool := c.isAlphanum || c = '_'

/-- Python `str.lstrip()` (ASCII whitespace model). -/
def pyLstrip (l : List Char) : List Char := l.dropWhile pySpace

/-- Python `str.rstrip()` (ASCII whitespace model). -/
def pyRstrip (l : List Char) : List Char := (l.reverse.dropWhile pySpace).reverse

/-- Python `str.strip()` (ASCII whitespace model). -/
def pyStrip (l : List Char) : List Char := pyRstrip (pyLstrip l)

/-- `pyStrip` on `String`. -/
def pyStripStr (s : String) : String := String.mk (pyStrip s.data)

/-- `DECL_KEYWORDS` from the source (lines 14-60). -/
def DECL_KEYWORDS : List String :=
  ["typedef", "extern", "static", "auto", "register", "_Thread_local",
   "__thread", "void", "char", "short", "int", "long", "float", "double",
   "signed", "unsigned", "_Bool", "_Complex", "_Imaginary", "struct",
   "union", "enum", "const", "volatile", "restrict", "_Atomic", "inline",
   "_Noreturn", "_Alignas", "typeof", "__typeof__", "__const",
   "__volatile__", "__restrict", "__restrict__", "__inline", "__inline__",
   "__alignas", "__alignas__", "__attribute__", "__attribute", "__declspec",
   "__asm__", "__asm", "asm"]

/-- `CONTROL_KEYWORDS` from the source (lines 62-76). -/
def CONTROL_KEYWORDS : List String :=
  ["if", "else", "for", "while", "do", "switch", "case", "default",
   "break", "continue", "return", "goto", "sizeof"]

/-- The reserved-word set `c_keywords` from `render_macro_name`
(source lines 968-976). -/
def c_keywords : List String :=
  ["auto", "break", "case", "char", "const", "continue", "default",
   "do", "double", "else", "enum", "extern", "float", "for", "goto",
   "if", "inline", "int", "long", "register", "restrict", "return",
   "short", "signed", "sizeof", "static", "struct", "switch", "typedef",
   "union", "unsigned", "void", "volatile", "while",
   "_Alignas", "_Alignof", "_Atomic", "_Bool", "_Complex", "_Generic",
   "_Imaginary", "_Noreturn", "_Static_assert", "_Thread_local"]

/-- Tokens of a macro body, as produced by `tokenize_macro_body`
(source lines 386-434): the paste marker `##`, identifiers, and one-character
punctuation from `(){}[];,=`. -/
inductive MacroToken where
  | paste
  | ident (s : String)
  | punct (c : Char)
deriving DecidableEq, Repr

/-- Punctuation characters recognized by the tokenizer (`"(){}[];,="`). -/
def punctChars : List Char :=
  ['(', ')', lbrace, rbrace, '[', ']', ';', ',', '=']

/-- Skip a string or character literal: the source's quote-consuming loop
(`if body[i] == "\\": i += 2 ... if body[i] == quote: i += 1; break`),
entered just after the opening quote; returns the suffix after the literal. -/
def skipStringLit (q : Char) : List Char → List Char
  | [] => []
  | [_] => []
  | c :: d :: rest =>
    if c = bslash then skipStringLit q rest
    else if c = q then d :: rest
    else skipStringLit q (d :: rest)

/-- Find the end of a `/* ... */` block comment: the source's
`body.find("*/", i + 2)` followed by `i = end + 2`; `none` models `find`
returning `-1`. The input starts just after the opening `/*`. -/
def findBlockEnd : List Char → Option (List Char)
  | [] => none
  | [_] => none
  | c :: d :: rest =>
    if c = '*' ∧ d = '/' then some rest
    else findBlockEnd (d :: rest)

/-- One fuel-indexed pass of `tokenize_macro_body` (source lines 386-434). -/
def tokAux : Nat → List Char → List MacroToken
  | 0, _ => []
  | _ + 1, [] => []
  | fuel + 1, c :: rest =>
    if pySpace c then tokAux fuel rest
    else if c = '/' ∧ rest.head? = some '/' then
      tokAux fuel ((c :: rest).dropWhile (fun d => ¬ d = '\n'))
    else if c = '/' ∧ rest.head? = some '*' then
      match findBlockEnd (rest.drop 1) with
      | none => []
      | some after => tokAux fuel after
    else if c = squote ∨ c = dquote then
      tokAux fuel (skipStringLit c rest)
    else if c = '#' ∧ rest.head? = some '#' then
      MacroToken.paste :: tokAux fuel (rest.drop 1)
    else if identStart c then
      MacroToken.ident (String.mk (c :: rest.takeWhile identCont)) ::
        tokAux fuel (rest.dropWhile identCont)
    else if c ∈ punctChars then
      MacroToken.punct c :: tokAux fuel rest
    else tokAux fuel rest

/-- `tokenize_macro_body(body)` from the source (lines 386-434). -/
def tokenize_macro_body (body : List Char) : List MacroToken :=
  tokAux (body.length + 1) body

/-- Kind of a template part: `param` or `lit` (the source uses the strings
`"param"` and `"lit"`). -/
inductive PKind where
  | param
  | lit
deriving DecidableEq, Repr

/-- A template part `(kind, value)`. -/
abbrev TPart := PKind × String

/-- The `ident_parts` helper of `extract_function_name_template`
(source lines 312-315). -/
def identParts (params : List String) (identifier : String) : List TPart :=
  if identifier ∈ params then [(PKind.param, identifier)]
  else [(PKind.lit, identifier)]

/-- State of the `extract_function_name_template` walk
(source lines 305-310). -/
structure TmplState where
  lastParts : Option (List TPart)
  parenCand : Option (List TPart)
  pendingParts : Option (List TPart)
  pendingPaste : Bool
  parenDepth : Nat
  bracketDepth : Nat

/-- Truthiness of an optional part list (Python's `if paren_candidate:`
and `if pending_parts:`): present and non-empty. -/
def truthyParts : Option (List TPart) → Bool
  | none => false
  | some ps => ¬ ps.isEmpty

/-- The token loop of `extract_function_name_template` (source lines
317-355), walking the token list with the state of `TmplState`. -/
def tmplLoop (params : List String) : TmplState → List MacroToken → Option (List TPart)
  | _, [] => none
  | st, tok :: toks =>
    match tok with
    | MacroToken.paste =>
      tmplLoop params { st with pendingPaste := ¬ st.lastParts = none } toks
    | MacroToken.ident v =>
      let parts := identParts params v
      let last2 :=
        match st.lastParts with
        | some lp => if st.pendingPaste then some (lp ++ parts) else some parts
        | none => some parts
      tmplLoop params { st with lastParts := last2, pendingPaste := false } toks
    | MacroToken.punct c =>
      let st0 := { st with pendingPaste := false }
      if c = '(' then
        let st1 :=
          if st0.parenDepth = 0 ∧ st0.pendingParts = none then
            { st0 with parenCand := st0.lastParts }
          else st0
        tmplLoop params { st1 with parenDepth := st1.parenDepth + 1 } toks
      else if c = ')' then
        if 0 < st0.parenDepth then
          let st1 := { st0 with parenDepth := st0.parenDepth - 1 }
          if st1.parenDepth = 0 ∧ st1.pendingParts = none ∧ truthyParts st1.parenCand then
            tmplLoop params { st1 with pendingParts := st1.parenCand } toks
          else tmplLoop params st1 toks
        else tmplLoop params st0 toks
      else if c = '[' then
        tmplLoop params { st0 with bracketDepth := st0.bracketDepth + 1 } toks
      else if c = ']' then
        if 0 < st0.bracketDepth then
          tmplLoop params { st0 with bracketDepth := st0.bracketDepth - 1 } toks
        else tmplLoop params st0 toks
      else if c = lbrace then
        if st0.parenDepth = 0 ∧ st0.bracketDepth = 0 ∧ truthyParts st0.pendingParts then
          st0.pendingParts
        else tmplLoop params st0 toks
      else if c = ';' ∨ c = ',' ∨ c = '=' then
        if st0.parenDepth = 0 ∧ st0.bracketDepth = 0 then
          tmplLoop params
            { st0 with lastParts := none, parenCand := none, pendingParts := none } toks
        else tmplLoop params st0 toks
      else tmplLoop params st0 toks

/-- `extract_function_name_template(body, params)` from the source
(lines 300-355): classify a macro body as a name template. Returns the
template only when the walk reaches a `{` at top level with a promoted
candidate; otherwise `none`. -/
def extract_function_name_template (body : List Char) (params : List String) :
    Option (List TPart) :=
  let tokens := tokenize_macro_body body
  if tokens.isEmpty then none
  else
    tmplLoop params
      { lastParts := none, parenCand := none, pendingParts := none,
        pendingPaste := false, parenDepth := 0, bracketDepth := 0 } tokens

/-- The token loop of `extract_macro_expansion_parts`
(source lines 363-383). -/
def expnLoop (params : List String) :
    Option (List TPart) → Bool → List MacroToken → Option (List TPart)
  | parts, _, [] => parts
  | parts, pendingPaste, tok :: toks =>
    match tok with
    | MacroToken.paste => expnLoop params parts true toks
    | MacroToken.ident v =>
      let newParts := if v ∈ params then [(PKind.param, v)] else [(PKind.lit, v)]
      match parts with
      | none => expnLoop params (some newParts) false toks
      | some ps =>
        if pendingPaste then expnLoop params (some (ps ++ newParts)) false toks
        else none
    | MacroToken.punct _ => none

/-- `extract_macro_expansion_parts(body, params)` from the source
(lines 358-383): the body must be a single identifier chain glued by `##`. -/
def extract_macro_expansion_parts (body : List Char) (params : List String) :
    Option (List TPart) :=
  let tokens := tokenize_macro_body body
  if tokens.isEmpty then none
  else expnLoop params none false tokens

/-- A parsed `#define` record, as built by `parse_macro_definitions`
(source lines 280-287). -/
structure MacroDef where
  name : String
  params : List String
  name_parts : Option (List TPart)
  expansion_parts : Option (List TPart)
deriving DecidableEq, Repr

/-- Python `str.splitlines()` restricted to the ASCII line endings
`\r\n`, `\r`, `\n` (no trailing empty line for a trailing terminator). -/
def plAux : List Char → List Char → List (List Char)
  | acc, [] => if acc.isEmpty then [] else [acc.reverse]
  | acc, '\r' :: '\n' :: rest => acc.reverse :: plAux [] rest
  | acc, '\r' :: rest => acc.reverse :: plAux [] rest
  | acc, '\n' :: rest => acc.reverse :: plAux [] rest
  | acc, c :: rest => plAux (c :: acc) rest

/-- `text.splitlines()` (ASCII model). -/
def pySplitlines (cs : List Char) : List (List Char) := plAux [] cs

/-- Python `s.split(",")` on a character list. -/
def splitOnComma : List Char → List (List Char)
  | [] => [[]]
  | c :: cs =>
    if c = ',' then [] :: splitOnComma cs
    else
      match splitOnComma cs with
      | h :: t => (c :: h) :: t
      | [] => [[c]]

/-- The hand-rolled match of `define_re`
(`^\s*#\s*define\s+([A-Za-z_][A-Za-z0-9_]*)\s*\(([^)]*)\)(.*)$`, source
lines 255-257), returning `(name, raw params, rest of line)`. -/
def matchDefine (line : List Char) : Option (String × String × String) :=
  match line.dropWhile pySpace with
  | '#' :: s2 =>
    let s3 := s2.dropWhile pySpace
    if s3.take 6 = "define".data then
      match s3.drop 6 with
      | c :: _ =>
        if pySpace c then
          match (s3.drop 6).dropWhile pySpace with
          | c2 :: r2 =>
            if identStart c2 then
              let nm := c2 :: r2.takeWhile identCont
              match (r2.dropWhile identCont).dropWhile pySpace with
              | '(' :: s8 =>
                let praw := s8.takeWhile (fun d => ¬ d = ')')
                match s8.dropWhile (fun d => ¬ d = ')') with
                | ')' :: s10 => some (String.mk nm, String.mk praw, String.mk s10)
                | _ => none
              | _ => none
            else none
          | [] => none
        else none
      | [] => none
    else none
  | _ => none

/-- The parameter list `[p.strip() for p in group(2).split(",") if p.strip()]`
(source line 267). -/
def paramsOf (praw : String) : List String :=
  ((splitOnComma praw.data).map (fun p => String.mk (pyStrip p))).filter
    (fun p => ¬ p = "")

/-- Whether a physical line continues onto the next one
(`line.rstrip().endswith("\\")`, source line 270). -/
def endsWithBackslash (l : List Char) : Bool := (pyRstrip l).getLast? = some bslash

/-- `strip_line_continuation(line)` from the source (lines 293-297). -/
def strip_line_continuation (l : List Char) : List Char :=
  let stripped := pyRstrip l
  if stripped.getLast? = some bslash then stripped.dropLast else l

/-- The continuation loop of `parse_macro_definitions` (source lines
270-275): starting from the matched line, collect the following physical
lines while the current line ends in a backslash; returns the collected
body lines together with the unconsumed rest. -/
def collectCont (cur : List Char) : List (List Char) → List (List Char) × List (List Char)
  | [] => ([], [])
  | l :: rs =>
    if endsWithBackslash cur then
      let r := collectCont l rs
      (l :: r.1, r.2)
    else ([], l :: rs)

/-- Join character-list lines with `"\n"` (Python `"\n".join(...)`). -/
def joinNewline : List (List Char) → List Char
  | [] => []
  | [l] => l
  | l :: ls => l ++ '\n' :: joinNewline ls

/-- The line loop of `parse_macro_definitions` (source lines 259-289),
fuel-indexed over the list of remaining physical lines. -/
def pmAux : Nat → List (List Char) → List MacroDef
  | 0, _ => []
  | _ + 1, [] => []
  | fuel + 1, line :: rest =>
    match matchDefine line with
    | none => pmAux fuel rest
    | some (nm, praw, g3) =>
      let cont := collectCont line rest
      let bodyParts := g3.data :: cont.1
      let body := pyStrip (joinNewline (bodyParts.map strip_line_continuation))
      let params := paramsOf praw
      { name := nm, params := params,
        name_parts := extract_function_name_template body params,
        expansion_parts := extract_macro_expansion_parts body params } ::
        pmAux fuel cont.2

/-- `parse_macro_definitions(text)` from the source (lines 251-290). -/
def parse_macro_definitions (text : String) : List MacroDef :=
  let lines := pySplitlines text.data
  pmAux (lines.length + 1) lines

/-- `skip_preprocessor_line(text, start_idx)` from the source (lines
828-838): advance past the next `\n` that is not preceded by `\`. The
callers always start at a `#` character, so the pair pattern below is
equivalent to the source's `text[i - 1]` check. -/
def skip_preprocessor_line : List Char → List Char
  | [] => []
  | [_] => []
  | c :: d :: rest =>
    if c = bslash ∧ d = '\n' then skip_preprocessor_line rest
    else if c = '\n' then d :: rest
    else skip_preprocessor_line (d :: rest)

/-- The string-literal capture of `parse_macro_args` (source lines 886-901):
consume a literal after its opening quote, returning the captured characters
(including escapes) and the remaining suffix. -/
def strCap (q : Char) : List Char → List Char × List Char
  | [] => ([], [])
  | [c] => ([c], [])
  | c :: d :: rest =>
    if c = bslash then
      let r := strCap q rest
      (c :: d :: r.1, r.2)
    else if c = q then ([c], d :: rest)
    else
      let r := strCap q (d :: rest)
      (c :: r.1, r.2)

/-- The main loop of `parse_macro_args` (source lines 853-905), fuel-indexed.
`depth` is the paren depth (1 inside the outermost parens), `current` the
accumulated characters of the current argument, `args` the finished
arguments. On failure the source returns an index that no live caller reads
(`resolve`'s scanner only uses it when the argument list is present), so the
failure remainder is normalized to the break position, with `[]` standing
for the source's `-1`/end-of-text. -/
def argsLoop : Nat → Nat → List Char → List String → List Char →
    Option (List String) × List Char
  | 0, _, _, _, cs => (none, cs)
  | _ + 1, _, _, _, [] => (none, [])
  | fuel + 1, depth, current, args, c :: rest =>
    if c = '(' then argsLoop fuel (depth + 1) (current ++ [c]) args rest
    else if c = ')' then
      if depth - 1 = 0 then
        let arg := String.mk (pyStrip current)
        let args2 := if ¬ arg = "" ∨ ¬ args = [] then args ++ [arg] else args
        (some args2, rest)
      else argsLoop fuel (depth - 1) (current ++ [c]) args rest
    else if c = ',' ∧ depth = 1 then
      argsLoop fuel depth [] (args ++ [String.mk (pyStrip current)]) rest
    else if c = '/' ∧ rest.head? = some '/' then
      argsLoop fuel depth current args ((c :: rest).dropWhile (fun d => ¬ d = '\n'))
    else if c = '/' ∧ rest.head? = some '*' then
      match findBlockEnd (rest.drop 1) with
      | none => (none, c :: rest)
      | some after => argsLoop fuel depth current args after
    else if c = squote ∨ c = dquote then
      let r := strCap c rest
      argsLoop fuel depth (current ++ c :: r.1) args r.2
    else argsLoop fuel depth (current ++ [c]) args rest

/-- `parse_macro_args(text, start_idx)` from the source (lines 841-905),
called on the suffix of the text that starts at `start_idx`. Returns the
parsed argument list (or `none` on failure) and the suffix after the
closing `)`. -/
def parse_macro_args (cs : List Char) : Option (List String) × List Char :=
  match cs with
  | '(' :: rest => argsLoop (rest.length + 1) 1 [] [] rest
  | _ => (none, cs)

/-- `parse_macro_args` on `String`, for readability of theorems. -/
def parse_macro_args_str (s : String) : Option (List String) × String :=
  let r := parse_macro_args s.data
  (r.1, String.mk r.2)

/-- `normalize_macro_arg(arg)` from the source (lines 963-964):
remove all whitespace from the argument. -/
def normalize_macro_arg (s : String) : String :=
  String.mk (s.data.filter (fun c => ¬ pySpace c))

/-- The dict comprehension of `build_arg_map` (source lines 958-960),
built by successive update so that a later duplicate parameter overwrites
an earlier one, exactly like the Python dict. -/
def buildArgMapAux (normalized : List String) : Nat → List String →
    (String → String) → (String → String)
  | _, [], acc => acc
  | idx, p :: ps, acc =>
    buildArgMapAux normalized (idx + 1) ps
      (fun v => if v = p then normalized.getD idx "" else acc v)

/-- `build_arg_map(params, args)` from the source (lines 958-960); reading
the resulting map at a missing key yields `""`, which is exactly how the
map is consumed (`arg_map.get(value, "")`). -/
def build_arg_map (params args : List String) : String → String :=
  buildArgMapAux (args.map normalize_macro_arg) 0 params (fun _ => "")

/-- Well-formedness test `re.match(r"^[A-Za-z_][A-Za-z0-9_]*$", name)`
(source line 984); the regex classes are ASCII, so this is exact. -/
def isIdentString (s : String) : Bool :=
  match s.data with
  | [] => false
  | c :: cs => identStart c && cs.all identCont

/-- `render_macro_name(parts, arg_map)` from the source (lines 967-988). -/
def render_macro_name (parts : List TPart) (argMap : String → String) :
    Option String :=
  let name := String.join (parts.map (fun p =>
    match p.1 with
    | PKind.param => argMap p.2
    | PKind.lit => p.2))
  if ¬ name = "" ∧ isIdentString name then
    if name ∈ c_keywords then none else some name
  else none

/-- A name accepted by `render_macro_name`: a well-formed identifier that is
not a reserved C keyword. -/
def validName (s : String) : Bool := isIdentString s && decide (s ∉ c_keywords)

/-- Truthiness of an optional string (Python's `if pending_name:` and
`if paren_candidate:`): present and non-empty. -/
def truthyStr : Option String → Bool
  | none => false
  | some s => ¬ s = ""

/-- Whether a macro record enters `macro_name_map`
(`macro.get("expansion_parts") and macro.get("params")`, source
lines 551-555): both fields truthy. -/
def qualifiesExpn (m : MacroDef) : Bool :=
  truthyParts m.expansion_parts && ¬ m.params.isEmpty

/-- Whether a macro record enters `macro_template_map`
(`macro.get("name_parts") and macro.get("params")`, source lines 556-560). -/
def qualifiesTmpl (m : MacroDef) : Bool :=
  truthyParts m.name_parts && ¬ m.params.isEmpty

/-- `macro_name_map` from `scan_function_definitions` (source lines
551-555): a dict comprehension over the macro list, so a later qualifying
record with the same name overwrites an earlier one, but a later
non-qualifying record inserts nothing. The map carries the projection
`(expansion_parts, params)` that the scanner reads. -/
def buildNameMap (ms : List MacroDef) : String → Option (List TPart × List String) :=
  ms.foldl
    (fun acc m =>
      if qualifiesExpn m then
        fun k => if k = m.name then some (m.expansion_parts.getD [], m.params) else acc k
      else acc)
    (fun _ => none)

/-- `macro_template_map` from `scan_function_definitions` (source lines
556-560), carrying `(name_parts, params)`. -/
def buildTemplateMap (ms : List MacroDef) : String → Option (List TPart × List String) :=
  ms.foldl
    (fun acc m =>
      if qualifiesTmpl m then
        fun k => if k = m.name then some (m.name_parts.getD [], m.params) else acc k
      else acc)
    (fun _ => none)

/-- Add a name to the set of used macro names (Python `set.add`):
membership-preserving, duplicate-free. -/
def insertName (m : String) (l : List String) : List String :=
  if m ∈ l then l else l ++ [m]

/-- The mutable state of the `scan_function_definitions` loop
(source lines 567-579). -/
structure ScanState where
  atLineStart : Bool
  braceDepth : Nat
  parenDepth : Nat
  bracketDepth : Nat
  lastIdent : Option String
  lastIdentMac : Option String
  parenCand : Option String
  parenCandMac : Option String
  pendingName : Option String
  pendingMac : Option String
  orderedDefs : List String
  macroNamedDefs : List String
  macroTemplateDefs : List String
  macroUsedNames : List String
deriving DecidableEq, Repr

/-- The result quadruple of `scan_function_definitions`
(source line 752). -/
structure ScanOut where
  orderedDefs : List String
  macroNamedDefs : List String
  macroTemplateDefs : List String
  macroUsedNames : List String
deriving DecidableEq, Repr

/-- Project the scanner state to its result quadruple. -/
def outOf (st : ScanState) : ScanOut :=
  { orderedDefs := st.orderedDefs, macroNamedDefs := st.macroNamedDefs,
    macroTemplateDefs := st.macroTemplateDefs,
    macroUsedNames := st.macroUsedNames }

/-- Result of one iteration of the scanner loop: either the loop has
finished (`done`) or it continues with a new state and suffix (`cont`). -/
inductive StepRes where
  | done (o : ScanOut)
  | cont (st : ScanState) (cs : List Char)
deriving DecidableEq, Repr

/-- The initial state of the scanner (source lines 567-579). -/
def initState : ScanState :=
  { atLineStart := true, braceDepth := 0, parenDepth := 0, bracketDepth := 0,
    lastIdent := none, lastIdentMac := none, parenCand := none,
    parenCandMac := none, pendingName := none, pendingMac := none,
    orderedDefs := [], macroNamedDefs := [], macroTemplateDefs := [],
    macroUsedNames := [] }

/-- The plain-identifier fallback of the scanner's identifier case
(source lines 681-683): record the identifier as `last_identifier` with no
producing macro. -/
def identFallback (st0 : ScanState) (ident : String) (after : List Char) : StepRes :=
  StepRes.cont { st0 with lastIdent := some ident, lastIdentMac := none } after

/-- The identifier-expansion branch of the scanner's identifier case
(source lines 665-679): if the identifier is in `macro_name_map`, try to
parse its argument list; on arity match render the expanded identifier and,
if accepted, record it as `last_identifier` with the macro recorded, and
advance past the arguments; otherwise fall through to the plain-identifier
fallback at the position after the identifier. -/
def identExpnStep (nm : String → Option (List TPart × List String))
    (st0 : ScanState) (ident : String) (after : List Char) : StepRes :=
  match nm ident with
  | some em =>
    if (after.dropWhile pySpace).head? = some '(' then
      match parse_macro_args (after.dropWhile pySpace) with
      | (some args, newRest) =>
        if args.length = em.2.length then
          match render_macro_name em.1 (build_arg_map em.2 args) with
          | some expanded =>
            StepRes.cont
              { st0 with
                lastIdent := some expanded,
                lastIdentMac := some ident } newRest
          | none => identFallback st0 ident after
        else identFallback st0 ident after
      | (none, _) => identFallback st0 ident after
    else identFallback st0 ident after
  | none => identFallback st0 ident after

/-- The name-template branch of the scanner's identifier case (source lines
646-663): at brace depth 0, if the identifier is in `macro_template_map`
and an argument list parses, then on arity match the rendered name is
emitted immediately as an ordered and template definition; whenever the
argument list parsed (arity match or not) the cursor advances past it and
`last_identifier` is cleared. Otherwise control falls through to the
identifier-expansion branch. -/
def identTmplStep (tm nm : String → Option (List TPart × List String))
    (st0 : ScanState) (ident : String) (after : List Char) : StepRes :=
  match tm ident with
  | some tp =>
    if st0.braceDepth = 0 then
      if (after.dropWhile pySpace).head? = some '(' then
        match parse_macro_args (after.dropWhile pySpace) with
        | (some args, newRest) =>
          let st1 :=
            if args.length = tp.2.length then
              match render_macro_name tp.1 (build_arg_map tp.2 args) with
              | some nmr =>
                { st0 with
                  orderedDefs := st0.orderedDefs ++ [nmr],
                  macroTemplateDefs := st0.macroTemplateDefs ++ [nmr] }
              | none => st0
            else st0
          StepRes.cont { st1 with lastIdent := none, lastIdentMac := none } newRest
        | (none, _) => identExpnStep nm st0 ident after
      else identExpnStep nm st0 ident after
    else identExpnStep nm st0 ident after
  | none => identExpnStep nm st0 ident after

/-- The identifier case of the scanner (source lines 624-683): consume the
identifier, clear state on control keywords, clear candidates on
declaration keywords at top level, and otherwise run the macro branches. -/
def identStep (tm nm : String → Option (List TPart × List String))
    (st0 : ScanState) (c : Char) (rest : List Char) : StepRes :=
  if String.mk (c :: rest.takeWhile identCont) ∈ CONTROL_KEYWORDS then
    StepRes.cont { st0 with lastIdent := none, lastIdentMac := none }
      (rest.dropWhile identCont)
  else if String.mk (c :: rest.takeWhile identCont) ∈ DECL_KEYWORDS then
    if st0.braceDepth = 0 ∧ st0.parenDepth = 0 ∧ st0.bracketDepth = 0 then
      StepRes.cont
        { st0 with
          lastIdent := none, lastIdentMac := none,
          parenCand := none, parenCandMac := none,
          pendingName := none, pendingMac := none }
        (rest.dropWhile identCont)
    else StepRes.cont st0 (rest.dropWhile identCont)
  else
    identTmplStep tm nm st0 (String.mk (c :: rest.takeWhile identCont))
      (rest.dropWhile identCont)

/-- The `{` case of the scanner (source lines 713-732): at all-zero depth
with a truthy pending name, emit it (additionally as a macro-named
definition, marking the macro used, when the pending macro is truthy),
clear the candidates, and enter the brace. -/
def lbraceStep (st0 : ScanState) (rest : List Char) : StepRes :=
  match st0.pendingName with
  | some s =>
    if ¬ s = "" ∧ st0.braceDepth = 0 ∧ st0.parenDepth = 0 ∧ st0.bracketDepth = 0 then
      let nu :=
        match st0.pendingMac with
        | some m =>
          if ¬ m = "" then
            (st0.macroNamedDefs ++ [s], insertName m st0.macroUsedNames)
          else (st0.macroNamedDefs, st0.macroUsedNames)
        | none => (st0.macroNamedDefs, st0.macroUsedNames)
      StepRes.cont
        { st0 with
          orderedDefs := st0.orderedDefs ++ [s],
          macroNamedDefs := nu.1, macroUsedNames := nu.2,
          pendingName := none, pendingMac := none,
          parenCand := none, parenCandMac := none,
          lastIdent := none, lastIdentMac := none,
          braceDepth := st0.braceDepth + 1 } rest
    else StepRes.cont { st0 with braceDepth := st0.braceDepth + 1 } rest
  | none => StepRes.cont { st0 with braceDepth := st0.braceDepth + 1 } rest

/-- The punctuation cases of the scanner (source lines 685-750): paren,
bracket and brace tracking, candidate promotion, the top-level `;`/`,`/`=`
reset, and the default advance. -/
def punctStep (st0 : ScanState) (c : Char) (rest : List Char) : StepRes :=
  if c = '(' then
    if st0.parenDepth = 0 ∧ st0.pendingName = none then
      StepRes.cont
        { st0 with
          parenCand := st0.lastIdent, parenCandMac := st0.lastIdentMac,
          parenDepth := st0.parenDepth + 1 } rest
    else StepRes.cont { st0 with parenDepth := st0.parenDepth + 1 } rest
  else if c = ')' then
    if 0 < st0.parenDepth then
      if st0.parenDepth - 1 = 0 ∧ st0.pendingName = none ∧ truthyStr st0.parenCand then
        StepRes.cont
          { st0 with
            parenDepth := st0.parenDepth - 1,
            pendingName := st0.parenCand, pendingMac := st0.parenCandMac } rest
      else StepRes.cont { st0 with parenDepth := st0.parenDepth - 1 } rest
    else StepRes.cont st0 rest
  else if c = '[' then
    StepRes.cont { st0 with bracketDepth := st0.bracketDepth + 1 } rest
  else if c = ']' then
    if 0 < st0.bracketDepth then
      StepRes.cont { st0 with bracketDepth := st0.bracketDepth - 1 } rest
    else StepRes.cont st0 rest
  else if c = lbrace then
    lbraceStep st0 rest
  else if c = rbrace then
    if 0 < st0.braceDepth then
      StepRes.cont { st0 with braceDepth := st0.braceDepth - 1 } rest
    else StepRes.cont st0 rest
  else if (c = ';' ∨ c = ',' ∨ c = '=') ∧
      st0.braceDepth = 0 ∧ st0.parenDepth = 0 ∧ st0.bracketDepth = 0 then
    StepRes.cont
      { st0 with
        pendingName := none, pendingMac := none,
        parenCand := none, parenCandMac := none,
        lastIdent := none, lastIdentMac := none } rest
  else StepRes.cont st0 rest

/-- One iteration of the `while i < length` loop of
`scan_function_definitions` (source lines 581-751). `tm` is
`macro_template_map`, `nm` is `macro_name_map`. The branches appear in the
source's order: preprocessor-line skip, newline, comments, string/char
literals, identifiers, punctuation. -/
def scanStep (tm nm : String → Option (List TPart × List String))
    (st : ScanState) (cs : List Char) : StepRes :=
  match cs with
  | [] => StepRes.done (outOf st)
  | c :: rest =>
    if st.atLineStart = true ∧ (cs.dropWhile spaceTab).head? = some '#' then
      StepRes.cont { st with atLineStart := true }
        (skip_preprocessor_line (cs.dropWhile spaceTab))
    else if c = '\n' then
      StepRes.cont { st with atLineStart := true } rest
    else
      let st0 := { st with atLineStart := false }
      if c = '/' ∧ rest.head? = some '/' then
        StepRes.cont st0 (cs.dropWhile (fun d => ¬ d = '\n'))
      else if c = '/' ∧ rest.head? = some '*' then
        match findBlockEnd (rest.drop 1) with
        | none => StepRes.done (outOf st0)
        | some after => StepRes.cont st0 after
      else if c = squote ∨ c = dquote then
        StepRes.cont st0 (skipStringLit c rest)
      else if identStart c then
        identStep tm nm st0 c rest
      else
        punctStep st0 c rest

/-- Fuel-indexed iteration of `scanStep`; with one unit of fuel per
character this computes the whole loop of `scan_function_definitions`. -/
def scanAux (tm nm : String → Option (List TPart × List String)) :
    Nat → ScanState → List Char → ScanOut
  | 0, st, _ => outOf st
  | fuel + 1, st, cs =>
    match scanStep tm nm st cs with
    | StepRes.done o => o
    | StepRes.cont st2 cs2 => scanAux tm nm fuel st2 cs2

/-- `scan_function_definitions(text, macros)` from the source
(lines 550-752). -/
def scan_function_definitions (text : String) (macros : List MacroDef) : ScanOut :=
  scanAux (buildTemplateMap macros) (buildNameMap macros)
    (text.data.length + 1) initState text.data

/-- Number of occurrences of a name in a list. -/
def countOcc (n : String) : List String → Nat
  | [] => 0
  | a :: l => (if a = n then 1 else 0) + countOcc n l

/-- The `counts` dict of `resolve_function_list` (source lines 110-112),
as a function built by repeated increment. -/
def buildCounts (l : List String) : String → Nat :=
  l.foldl (fun c name => fun m => if m = name then c m + 1 else c m) (fun _ => 0)

/-- One consuming pass of the merger (source lines 114-119 and 121-126):
walk a list of names, and for each name with remaining positive count,
append it and decrement; returns the final counts and the appended names. -/
def mergePass (c : String → Nat) : List String → (String → Nat) × List String
  | [] => (c, [])
  | n :: rest =>
    if 0 < c n then
      let r := mergePass (fun m => if m = n then c m - 1 else c m) rest
      (r.1, n :: r.2)
    else mergePass c rest

/-- The merging core of `resolve_function_list` (source lines 110-128):
first pass over the scanner's ordered definitions, then, if any count is
still positive (`any(counts.values())`; the dict's keys are exactly the
names of `target`), a second pass over the target names. -/
def merge_name_lists (ordered target : List String) : List String :=
  if target.any (fun m => decide (0 < (mergePass (buildCounts target) ordered).1 m)) then
    (mergePass (buildCounts target) ordered).2 ++
      (mergePass (mergePass (buildCounts target) ordered).1 target).2
  else (mergePass (buildCounts target) ordered).2

/-- The scanner output for a file's text:
`scan_function_definitions(text, parse_macro_definitions(text))`
(source lines 102-105). -/
def scanOf (text : String) : ScanOut :=
  scan_function_definitions text (parse_macro_definitions text)

/-- `filtered_parser_names` (source line 107): external names that are not
recorded as used macro names. -/
def filteredParserNames (text : String) (parserNames : List String) : List String :=
  parserNames.filter (fun n => decide (n ∉ (scanOf text).macroUsedNames))

/-- `target_names` (source line 108): filtered external names, then the
macro-named definitions, then the macro-template definitions. -/
def mergeTargets (text : String) (parserNames : List String) : List String :=
  filteredParserNames text parserNames ++ (scanOf text).macroNamedDefs ++
    (scanOf text).macroTemplateDefs

/-- The successful-read path of `resolve_function_list(path, parser_names)`
(source lines 94-128), applied to the file's text. -/
def resolve_function_list (text : String) (parserNames : List String) : List String :=
  merge_name_lists (scanOf text).orderedDefs (mergeTargets text parserNames)

/-- `resolve_function_list` with the file read modelled explicitly
(source lines 94-100): `rd` is the outcome of
`Path(path).read_text(...)` — `Except.error exc` models the `OSError`
branch, whose message is interpolated into the error string. -/
def resolve_function_list_io (rd : Except String String)
    (parserNames : List String) (stderrMessage : Option String) :
    List String × Option String :=
  match rd with
  | Except.error exc =>
    let base := "macro scan failed: " ++ exc
    let err0 := match stderrMessage with | some s => s | none => ""
    let err := if ¬ err0 = "" then err0 ++ "; " ++ base else base
    (parserNames, some err)
  | Except.ok text => (resolve_function_list text parserNames, none)

/-! ## Basic counting lemmas for the merger -/

theorem countOcc_append (n : String) (l1 l2 : List String) :
    countOcc n (l1 ++ l2) = countOcc n l1 + countOcc n l2 := by
  induction l1 with
  | nil => simp [countOcc]
  | cons a l ih => simp [countOcc, ih, Nat.add_assoc]

theorem countOcc_eq_zero (n : String) (l : List String) (h : n ∉ l) :
    countOcc n l = 0 := by
  induction l with
  | nil => rfl
  | cons a l ih =>
    simp only [List.mem_cons, not_or] at h
    have ha : ¬ a = n := fun hc => h.1 hc.symm
    simp [countOcc, if_neg ha, ih h.2]

theorem countOcc_pos_iff (n : String) (l : List String) :
    n ∈ l ↔ 0 < countOcc n l := by
  induction l with
  | nil => simp [countOcc]
  | cons a l ih =>
    by_cases h : a = n
    · subst h; simp [countOcc]
    · have hna : ¬ n = a := fun hc => h hc.symm
      simp [countOcc, if_neg h, hna, ih]

theorem buildCountsAux (f : (String → Nat) → String → (String → Nat))
    (hf : f = fun c name => fun m => if m = name then c m + 1 else c m) :
    ∀ (l : List String) (c : String → Nat) (n : String),
      l.foldl f c n = c n + countOcc n l := by
  intro l
  induction l with
  | nil => intro c n; simp [countOcc]
  | cons a l ih =>
    intro c n
    simp only [List.foldl, ih]
    by_cases h : n = a
    · subst h; simp [hf, countOcc]; omega
    · have ha : ¬ a = n := fun hc => h hc.symm
      simp [hf, if_neg h, countOcc, if_neg ha]

theorem buildCounts_eq (l : List String) (n : String) :
    buildCounts l n = countOcc n l := by
  unfold buildCounts
  rw [buildCountsAux _ rfl l _ n]
  omega

theorem mergePass_spec (n : String) : ∀ (L : List String) (c : String → Nat),
    countOcc n (mergePass c L).2 = min (countOcc n L) (c n) ∧
    (mergePass c L).1 n = c n - min (countOcc n L) (c n) := by
  intro L
  induction L with
  | nil => intro c; simp [mergePass, countOcc]
  | cons a L ih =>
    intro c
    by_cases ha : 0 < c a
    · simp only [mergePass, if_pos ha]
      obtain ⟨h1, h2⟩ := ih (fun m => if m = a then c m - 1 else c m)
      by_cases han : a = n
      · subst han
        simp only [if_pos rfl] at h1 h2
        simp only [countOcc, if_pos rfl]
        simp at h1 h2 ⊢
        constructor <;> omega
      · have hna : ¬ n = a := fun hc => han hc.symm
        simp only [if_neg hna] at h1 h2
        simp only [countOcc, if_neg han]
        constructor <;> omega
    · simp only [mergePass, if_neg ha]
      obtain ⟨h1, h2⟩ := ih c
      by_cases han : a = n
      · subst han
        simp only [countOcc, if_pos rfl]
        simp at h1 h2 ⊢
        constructor <;> omega
      · simp only [countOcc, if_neg han]
        constructor <;> omega

theorem merge_count (ordered target : List String) (n : String) :
    countOcc n (merge_name_lists ordered target) = countOcc n target := by
  unfold merge_name_lists
  obtain ⟨h1, h2⟩ := mergePass_spec n ordered (buildCounts target)
  rw [buildCounts_eq] at h1 h2
  split
  · next hguard =>
    rw [countOcc_append]
    obtain ⟨h3, _⟩ := mergePass_spec n target (mergePass (buildCounts target) ordered).1
    rw [h2] at h3
    omega
  · next hguard =>
    by_cases hn : n ∈ target
    · have hz : (mergePass (buildCounts target) ordered).1 n = 0 := by
        have hfalse := List.any_eq_false.mp (Bool.eq_false_iff.mpr hguard) n hn
        simpa using hfalse
      rw [h2] at hz
      omega
    · rw [countOcc_eq_zero n target hn] at h1 ⊢
      omega

/-! ## Concrete scenario texts -/

/-- The two-line source of scenario S3:
`#define DEF(T, N) int T##_##N(T x)` followed by
`DEF(int, add) { return x; }`. -/
def s3Text : String :=
  "#define DEF(T, N) int T##_##N(T x)\nDEF(int, add) \x7b return x; \x7d"

/-- The two-line source of scenario S4:
`#define PFX(n) my_##n` followed by `void PFX(init)(void) { }`. -/
def s4Text : String :=
  "#define PFX(n) my_##n\nvoid PFX(init)(void) \x7b \x7d"

/-- A file that defines the function-like macro `M` twice — first as an
identifier-expansion macro (`my_##a`), then with a body `(a+1)` that
qualifies as neither template — and then invokes `M(init)` as a function
header. -/
def c5Text : String :=
  "#define M(a) my_##a\n#define M(a) (a+1)\nvoid M(init)(void) \x7b \x7d"

/-! ## Helper lemmas about strings -/

theorem strAppendNeEmptyL (s t : String) (h : ¬ s = "") : ¬ (s ++ t) = "" := by
  intro hc
  apply h
  obtain ⟨ds⟩ := s
  obtain ⟨dt⟩ := t
  have hd : ds ++ dt = ([] : List Char) := congrArg String.data hc
  have h2 := List.append_eq_nil.mp hd
  exact h2.1 ▸ rfl

theorem strAppendNeEmptyR (s t : String) (h : ¬ t = "") : ¬ (s ++ t) = "" := by
  intro hc
  apply h
  obtain ⟨ds⟩ := s
  obtain ⟨dt⟩ := t
  have hd : ds ++ dt = ([] : List Char) := congrArg String.data hc
  have h2 := List.append_eq_nil.mp hd
  exact h2.2 ▸ rfl

/-! ## Claims -/

/-- C1, counterexample: for the literal two-line source of scenario S3 the
per-file result is not `["int_add"]` — with an empty external list the
merged list is empty. -/
theorem c1_cex : ¬ resolve_function_list s3Text [] = ["int_add"] := by decide

/-- C1, amended: for scenario S3's source the macro body
`int T##_##N(T x)` never reaches a `{` at top level, so `DEF` is parsed
with `name_parts` (and `expansion_parts`) absent and is not classified as
a name-template macro; the scanner records only the raw candidate `DEF`
as an ordered definition, no macro-named or macro-template definitions and
no used macros, and the merged per-file list for an empty external parser
list is `[]`. -/
theorem c1_thm :
    parse_macro_definitions s3Text =
      [{ name := "DEF", params := ["T", "N"],
         name_parts := none, expansion_parts := none }] ∧
    scanOf s3Text =
      { orderedDefs := ["DEF"], macroNamedDefs := [],
        macroTemplateDefs := [], macroUsedNames := [] } ∧
    resolve_function_list s3Text [] = [] := by
  refine ⟨by decide, by decide, by decide⟩

/-- C2, counterexample: for scenario S4's source with external list
`["my_init"]`, the name `my_init` has multiplicity 1 among the scanner's
definitions and count 1 in the external list, yet appears twice in the
merged list — the merger adds the counts instead of taking their maximum. -/
theorem c2_cex :
    countOcc "my_init" (resolve_function_list s4Text ["my_init"]) = 2 ∧
    countOcc "my_init" (scanOf s4Text).orderedDefs = 1 ∧
    countOcc "my_init"
      ((scanOf s4Text).macroNamedDefs ++ (scanOf s4Text).macroTemplateDefs) = 1 ∧
    countOcc "my_init" ["my_init"] = 1 ∧
    ¬ (2 : Nat) = max 1 1 := by
  refine ⟨by decide, by decide, by decide, by decide, by decide⟩

/-- C2, amended: every name in the union of the filtered parser names, the
macro-named definitions and the macro-template definitions appears in the
merged list with multiplicity equal to the SUM of its count in the filtered
external list and its multiplicity among the scanner's macro-produced
definitions (not the maximum of source and external multiplicity). -/
theorem c2_thm (text : String) (parserNames : List String) (n : String)
    (_h : n ∈ mergeTargets text parserNames) :
    countOcc n (resolve_function_list text parserNames) =
      countOcc n (filteredParserNames text parserNames) +
        countOcc n ((scanOf text).macroNamedDefs ++ (scanOf text).macroTemplateDefs) := by
  unfold resolve_function_list
  rw [merge_count]
  unfold mergeTargets
  rw [List.append_assoc, countOcc_append]

/-- C2, witness for `c2_thm` at scenario S4 with external list
`["my_init"]`. -/
theorem c2_witness :
    "my_init" ∈ mergeTargets s4Text ["my_init"] ∧
    countOcc "my_init" (resolve_function_list s4Text ["my_init"]) =
      countOcc "my_init" (filteredParserNames s4Text ["my_init"]) +
        countOcc "my_init"
          ((scanOf s4Text).macroNamedDefs ++ (scanOf s4Text).macroTemplateDefs) :=
  ⟨by decide, c2_thm s4Text ["my_init"] "my_init" (by decide)⟩

/-- C3, counterexample: `resolve_function_list` passes external parser
names through unvalidated — the reserved keyword `int` supplied by the
external list appears verbatim in the merged list. -/
theorem c3_cex :
    resolve_function_list "" ["int"] = ["int"] ∧
    "int" ∈ c_keywords ∧ validName "int" = false := by
  refine ⟨by decide, by decide, by decide⟩

/-- C4: for scenario S4's source the per-file result is `fc = ["my_init"]`;
the external entry `PFX` is filtered out because `PFX` is recorded as a
used expansion macro. -/
theorem c4_thm :
    resolve_function_list s4Text [] = ["my_init"] ∧
    resolve_function_list s4Text ["PFX"] = ["my_init"] ∧
    (scanOf s4Text).macroUsedNames = ["PFX"] := by
  refine ⟨by decide, by decide, by decide⟩

/-- C5, counterexample: when the same macro name is `#define`d twice and
the later definition does not qualify for a map, the earlier definition
still drives scanning. In `c5Text` the later `#define M(a) (a+1)` has no
expansion parts, yet the scanner's `macro_name_map` still holds the earlier
`my_##a` template, and the scan emits `my_init` from it. -/
theorem c5_cex :
    parse_macro_definitions c5Text =
      [{ name := "M", params := ["a"], name_parts := none,
         expansion_parts := some [(PKind.lit, "my_"), (PKind.param, "a")] },
       { name := "M", params := ["a"], name_parts := none, expansion_parts := none }] ∧
    buildNameMap (parse_macro_definitions c5Text) "M" =
      some ([(PKind.lit, "my_"), (PKind.param, "a")], ["a"]) ∧
    (scanOf c5Text).orderedDefs = ["my_init"] ∧
    (scanOf c5Text).macroUsedNames = ["M"] := by
  refine ⟨by decide, by decide, by decide, by decide⟩

/-- C5, amended: within each of the scanner's two macro maps, the later
`#define` wins among definitions that QUALIFY for that map (truthy
`expansion_parts` resp. `name_parts`, and non-empty `params`); a later
non-qualifying definition of the same name inserts nothing and leaves an
earlier qualifying definition in force. -/
theorem c5_thm (ms : List MacroDef) (m : MacroDef) (k : String) :
    buildNameMap (ms ++ [m]) k =
      (if qualifiesExpn m = true ∧ k = m.name
       then some (m.expansion_parts.getD [], m.params)
       else buildNameMap ms k) ∧
    buildTemplateMap (ms ++ [m]) k =
      (if qualifiesTmpl m = true ∧ k = m.name
       then some (m.name_parts.getD [], m.params)
       else buildTemplateMap ms k) := by
  constructor
  · unfold buildNameMap
    rw [List.foldl_append]
    simp only [List.foldl]
    by_cases hq : qualifiesExpn m
    · by_cases hk : k = m.name <;> simp [hq, hk]
    · simp [hq]
  · unfold buildTemplateMap
    rw [List.foldl_append]
    simp only [List.foldl]
    by_cases hq : qualifiesTmpl m
    · by_cases hk : k = m.name <;> simp [hq, hk]
    · simp [hq]

/-- C8: when the file read fails, `resolve_function_list` returns the
external list unchanged together with a non-empty error string (the
`OSError` branch of the source, modelled by the `Except.error` case of the
read outcome); being a total function, it never raises. -/
theorem c8_thm (exc : String) (parserNames : List String) (msg : Option String) :
    (resolve_function_list_io (Except.error exc) parserNames msg).1 = parserNames ∧
    ∃ e, (resolve_function_list_io (Except.error exc) parserNames msg).2 = some e ∧
      ¬ e = "" := by
  cases msg with
  | none =>
    refine ⟨rfl, "macro scan failed: " ++ exc, ?_, ?_⟩
    · simp [resolve_function_list_io]
    · exact strAppendNeEmptyL _ _ (by decide)
  | some s =>
    by_cases hs : s = ""
    · subst hs
      refine ⟨rfl, "macro scan failed: " ++ exc, ?_, ?_⟩
      · simp [resolve_function_list_io]
      · exact strAppendNeEmptyL _ _ (by decide)
    · refine ⟨rfl, s ++ "; " ++ ("macro scan failed: " ++ exc), ?_, ?_⟩
      · simp [resolve_function_list_io, hs]
      · exact strAppendNeEmptyR _ _ (strAppendNeEmptyL _ _ (by decide))

/-- C9: as a multiset, the merged list produced by `resolve_function_list`
equals the concatenation of the filtered parser names, the macro-named
definitions and the macro-template definitions; every name occurs exactly
as often in the merged list as in that concatenation, so in particular a
plain scanner definition whose name occurs in none of the three lists
never appears. -/
theorem c9_thm (text : String) (parserNames : List String) (n : String) :
    countOcc n (resolve_function_list text parserNames) =
      countOcc n (mergeTargets text parserNames) :=
  merge_count (scanOf text).orderedDefs (mergeTargets text parserNames) n

/-! ## C6: name rendering against the specification's wording -/

/-- Specification-side argument normalization (section 4.4): before
substitution, every argument has all whitespace removed, not just
leading/trailing. -/
def spec_remove_whitespace (s : String) : String :=
  String.mk (s.data.filter (fun c => ¬ pySpace c))

/-- Specification-side substitution (section 4.4): each formal parameter is
mapped to its normalized argument by position, omitted positions map to the
empty string, and a value that is not a formal parameter reads as `""`. -/
def spec_arg_lookup (params args : List String) (v : String) : String :=
  match params.indexOf? v with
  | some i => (args.map spec_remove_whitespace).getD i ""
  | none => ""

/-- Specification-side well-formedness (section 3): a function-name
identifier must match `[A-Za-z_][A-Za-z0-9_]*`. -/
def spec_is_identifier (s : String) : Bool :=
  match s.data with
  | [] => false
  | c :: cs => identStart c && cs.all identCont

/-- The reserved identifiers of specification section 4.7. -/
def spec_reserved : List String :=
  ["auto", "break", "case", "char", "const", "continue", "default",
   "do", "double", "else", "enum", "extern", "float", "for", "goto",
   "if", "inline", "int", "long", "register", "restrict", "return",
   "short", "signed", "sizeof", "static", "struct", "switch", "typedef",
   "union", "unsigned", "void", "volatile", "while",
   "_Alignas", "_Alignof", "_Atomic", "_Bool", "_Complex", "_Generic",
   "_Imaginary", "_Noreturn", "_Static_assert", "_Thread_local"]

/-- Name rendering as worded by the specification (section 4.4):
concatenate the value of every `param` part (normalized argument of the
formal parameter, `""` when omitted) and every `lit` part verbatim, and
yield the result iff it is a well-formed identifier that is not a reserved
C keyword. -/
def render_name_from_spec (parts : List TPart) (params args : List String) :
    Option String :=
  let name := String.join (parts.map (fun p =>
    match p.1 with
    | PKind.param => spec_arg_lookup params args p.2
    | PKind.lit => p.2))
  if spec_is_identifier name ∧ name ∉ spec_reserved then some name else none

theorem buildArgMapAux_spec (normalized : List String) :
    ∀ (ps : List String) (idx : Nat) (acc : String → String) (v : String),
      ps.Nodup →
      buildArgMapAux normalized idx ps acc v =
        (match ps.indexOf? v with
         | some i => normalized.getD (idx + i) ""
         | none => acc v) := by
  intro ps
  induction ps with
  | nil => intro idx acc v _; simp [buildArgMapAux]
  | cons p ps ih =>
    intro idx acc v hnd
    rw [List.nodup_cons] at hnd
    rw [buildArgMapAux, ih _ _ _ hnd.2, List.indexOf?_cons]
    by_cases hvp : v = p
    · subst hvp
      have hidx : ps.indexOf? v = none := by
        rw [List.indexOf?_eq_none_iff]
        intro x hx hxv
        exact hnd.1 ((eq_of_beq hxv) ▸ hx)
      simp [hidx]
    · have hpv : (p == v) = false := beq_eq_false_iff_ne.mpr (fun hc => hvp hc.symm)
      rw [hpv]
      simp only [Bool.false_eq_true, if_false]
      cases hf : ps.indexOf? v with
      | none => simp [hf, hvp]
      | some i =>
        simp only [hf, Option.map_some]
        have : idx + 1 + i = idx + (i + 1) := by omega
        simp [this]

theorem isIdentString_ne_empty (s : String) (h : isIdentString s = true) :
    ¬ s = "" := by
  intro hc
  subst hc
  exact absurd h (by decide)

theorem build_arg_map_eq (params args : List String) (v : String)
    (h : params.Nodup) :
    build_arg_map params args v = spec_arg_lookup params args v := by
  unfold build_arg_map spec_arg_lookup
  rw [buildArgMapAux_spec _ _ _ _ _ h]
  have hn : args.map normalize_macro_arg = args.map spec_remove_whitespace := rfl
  cases hf : params.indexOf? v with
  | none => rfl
  | some i => simp [hn]

/-- C6: rendering a template through `build_arg_map` and
`render_macro_name` agrees with the specification's wording — whitespace
is removed from every argument (not just trimmed), each formal parameter
maps to its normalized argument with omitted positions mapping to `""`,
`param` parts read the map and `lit` parts are verbatim, and the result is
produced iff it is a well-formed identifier that is not a reserved C
keyword. The parameters of a macro are distinct (data-model invariant),
which the hypothesis records. -/
theorem c6_thm (parts : List TPart) (params args : List String)
    (h : params.Nodup) :
    render_macro_name parts (build_arg_map params args) =
      render_name_from_spec parts params args := by
  unfold render_macro_name render_name_from_spec
  have hmap : (parts.map fun p =>
        match p.1 with
        | PKind.param => build_arg_map params args p.2
        | PKind.lit => p.2) =
      parts.map fun p =>
        match p.1 with
        | PKind.param => spec_arg_lookup params args p.2
        | PKind.lit => p.2 := by
    apply List.map_congr_left
    intro p _
    cases hp : p.1 <;> simp [hp, build_arg_map_eq params args p.2 h]
  rw [hmap]
  generalize (String.join (parts.map fun p =>
    match p.1 with
    | PKind.param => spec_arg_lookup params args p.2
    | PKind.lit => p.2)) = nm
  have hspec : spec_is_identifier nm = isIdentString nm := rfl
  have hres : spec_reserved = c_keywords := rfl
  dsimp only
  rw [hspec, hres]
  by_cases h1 : isIdentString nm = true
  · by_cases h2 : nm ∈ c_keywords
    · simp [h1, h2, isIdentString_ne_empty nm h1]
    · simp [h1, h2, isIdentString_ne_empty nm h1]
  · simp [h1, Bool.not_eq_true _ ▸ h1]

/-- C6, witness for `c6_thm` at the template of scenario S4's macro
(`my_##n` with parameter `n` and argument `init`). -/
theorem c6_witness :
    ([("n" : String)] : List String).Nodup ∧
    render_macro_name [(PKind.lit, "my_"), (PKind.param, "n")]
        (build_arg_map ["n"] ["init"]) =
      render_name_from_spec [(PKind.lit, "my_"), (PKind.param, "n")]
        ["n"] ["init"] :=
  ⟨by decide, c6_thm [(PKind.lit, "my_"), (PKind.param, "n")] ["n"] ["init"]
    (by decide)⟩

/-! ## C7: the macro-argument parser -/

theorem dropWhile_head_false (p : Char → Bool) (l : List Char) (c : Char)
    (h : (l.dropWhile p).head? = some c) : p c = false := by
  induction l with
  | nil => simp at h
  | cons a l ih =>
    rw [List.dropWhile_cons] at h
    split at h
    · exact ih h
    · next hpa =>
      simp at h
      exact h ▸ (Bool.not_eq_true _ ▸ hpa)

theorem dropWhile_of_head_false (p : Char → Bool) (l : List Char)
    (h : ∀ c, l.head? = some c → p c = false) : l.dropWhile p = l := by
  cases l with
  | nil => rfl
  | cons a l =>
    rw [List.dropWhile_cons, if_neg]
    rw [h a rfl]
    simp

theorem dropWhile_decomp (p : Char → Bool) (l : List Char) :
    ∃ t, l = t ++ l.dropWhile p := by
  induction l with
  | nil => exact ⟨[], rfl⟩
  | cons a l ih =>
    rw [List.dropWhile_cons]
    split
    · obtain ⟨t, ht⟩ := ih
      exact ⟨a :: t, by simp [← ht]⟩
    · exact ⟨[], rfl⟩

theorem pyRstrip_decomp (l : List Char) : ∃ s, l = pyRstrip l ++ s := by
  obtain ⟨t, ht⟩ := dropWhile_decomp pySpace l.reverse
  refine ⟨t.reverse, ?_⟩
  unfold pyRstrip
  calc l = l.reverse.reverse := by simp
    _ = (t ++ l.reverse.dropWhile pySpace).reverse := by rw [← ht]
    _ = (l.reverse.dropWhile pySpace).reverse ++ t.reverse := by simp

theorem pyRstrip_idem (l : List Char) : pyRstrip (pyRstrip l) = pyRstrip l := by
  unfold pyRstrip
  rw [List.reverse_reverse]
  rw [dropWhile_of_head_false pySpace _ (fun c hc => dropWhile_head_false pySpace _ c hc)]

theorem pyStrip_idem (l : List Char) : pyStrip (pyStrip l) = pyStrip l := by
  show pyStrip (pyRstrip (pyLstrip l)) = pyRstrip (pyLstrip l)
  have hylead : ∀ c, (pyLstrip l).head? = some c → pySpace c = false :=
    fun c hc => dropWhile_head_false pySpace _ c hc
  have hzlead : ∀ c, (pyRstrip (pyLstrip l)).head? = some c → pySpace c = false := by
    intro c hc
    obtain ⟨s, hs⟩ := pyRstrip_decomp (pyLstrip l)
    apply hylead
    rw [hs]
    cases hz : pyRstrip (pyLstrip l) with
    | nil => rw [hz] at hc; simp at hc
    | cons z zs => rw [hz] at hc; simpa using hc
  show pyRstrip (pyLstrip (pyRstrip (pyLstrip l))) = pyRstrip (pyLstrip l)
  rw [show pyLstrip (pyRstrip (pyLstrip l)) = pyRstrip (pyLstrip l) from
    dropWhile_of_head_false pySpace _ hzlead]
  exact pyRstrip_idem (pyLstrip l)

theorem pyStripStr_mk_strip (l : List Char) :
    pyStripStr (String.mk (pyStrip l)) = String.mk (pyStrip l) := by
  unfold pyStripStr
  rw [show (String.mk (pyStrip l)).data = pyStrip l from rfl, pyStrip_idem]

theorem argsLoop_trim : ∀ (fuel depth : Nat) (current : List Char)
    (args : List String) (cs : List Char) (out : List String) (rest : List Char),
    (∀ a ∈ args, pyStripStr a = a) →
    argsLoop fuel depth current args cs = (some out, rest) →
    ∀ a ∈ out, pyStripStr a = a := by
  intro fuel
  induction fuel with
  | zero =>
    intro depth current args cs out rest _ hrun
    simp [argsLoop] at hrun
  | succ fuel ih =>
    intro depth current args cs out rest hargs hrun
    cases cs with
    | nil => simp [argsLoop] at hrun
    | cons c rest2 =>
      rw [argsLoop] at hrun
      split at hrun
      · exact ih _ _ _ _ _ _ hargs hrun
      · split at hrun
        · split at hrun
          · have hout : (if ¬ String.mk (pyStrip current) = "" ∨ ¬ args = []
                then args ++ [String.mk (pyStrip current)] else args) = out := by
              have := hrun
              injection this with h1 h2
              injection h1
            intro a ha
            rw [← hout] at ha
            split at ha
            · rcases List.mem_append.mp ha with hm | hm
              · exact hargs a hm
              · rw [List.mem_singleton.mp hm]
                exact pyStripStr_mk_strip current
            · exact hargs a ha
          · exact ih _ _ _ _ _ _ hargs hrun
        · split at hrun
          · refine ih _ _ _ _ _ _ ?_ hrun
            intro a ha
            rcases List.mem_append.mp ha with hm | hm
            · exact hargs a hm
            · rw [List.mem_singleton.mp hm]
              exact pyStripStr_mk_strip current
          · split at hrun
            · exact ih _ _ _ _ _ _ hargs hrun
            · split at hrun
              · split at hrun
                · simp at hrun
                · exact ih _ _ _ _ _ _ hargs hrun
              · split at hrun
                · exact ih _ _ _ _ _ _ hargs hrun
                · exact ih _ _ _ _ _ _ hargs hrun

/-- C7: the macro-argument parser. The concrete clauses exercise each rule
of the claim: `()` yields the empty list; `(x)` yields `["x"]` with the
cursor just after the `)`; `( , )` yields `["", ""]`; commas split only at
paren depth 1 (`(f(a,b),c)`); commas inside comments and string literals
are inert; `(a,)` keeps a trailing empty argument while `( )` appends
nothing because the accumulated text is empty and no argument was pushed.
The final clause proves for every input that every returned argument is
trimmed (stripping it again changes nothing). -/
theorem c7_thm :
    parse_macro_args_str "()" = (some [], "") ∧
    parse_macro_args_str "(x)" = (some ["x"], "") ∧
    parse_macro_args_str "( , )" = (some ["", ""], "") ∧
    parse_macro_args_str "(x)yz" = (some ["x"], "yz") ∧
    parse_macro_args_str "(f(a,b),c)" = (some ["f(a,b)", "c"], "") ∧
    parse_macro_args_str "(\"a,b\", c)" = (some ["\"a,b\"", "c"], "") ∧
    parse_macro_args_str "(a /* , */ b)" = (some ["a  b"], "") ∧
    parse_macro_args_str "(a,)" = (some ["a", ""], "") ∧
    parse_macro_args_str "( )" = (some [], "") ∧
    ∀ (cs : List Char) (out : List String) (rest : List Char),
      parse_macro_args cs = (some out, rest) → ∀ a ∈ out, pyStripStr a = a := by
  refine ⟨by decide, by decide, by decide, by decide, by decide, by decide,
    by decide, by decide, by decide, ?_⟩
  intro cs out rest hrun
  cases cs with
  | nil => simp [parse_macro_args] at hrun
  | cons c rest2 =>
    by_cases hc : c = '('
    · subst hc
      exact argsLoop_trim _ _ _ _ _ _ _ (by simp) hrun
    · rw [parse_macro_args.eq_def] at hrun
      split at hrun
      · next heq =>
        injection heq with h1 h2
        subst h1
        exact argsLoop_trim _ _ _ _ _ _ _ (by simp) (h2 ▸ hrun)
      · simp at hrun

/-- C7, witness for the universal trimming clause of `c7_thm` at the input
`(x)`. -/
theorem c7_witness :
    parse_macro_args ("(x)".data) = (some ["x"], []) ∧ pyStripStr "x" = "x" :=
  ⟨by decide,
    c7_thm.2.2.2.2.2.2.2.2.2 "(x)".data ["x"] [] (by decide) "x" (by decide)⟩

/-! ## C3: validity of macro-produced names -/

theorem render_valid (parts : List TPart) (am : String → String) (s : String)
    (h : render_macro_name parts am = some s) : validName s = true := by
  unfold render_macro_name at h
  dsimp only at h
  split at h
  · next hc =>
    split at h
    · exact absurd h (by simp)
    · next hkw =>
      injection h with h1
      subst h1
      unfold validName
      simp [hc.2, hkw]
  · exact absurd h (by simp)

/-- The macro-tracking invariant of the scanner state: whenever one of the
identifier slots records a producing macro, the corresponding name slot
holds a render-accepted name, and every name in the macro-named and
macro-template output lists is render-accepted. -/
def pairValid (mac nameOpt : Option String) : Prop :=
  mac.isSome = true → ∃ s, nameOpt = some s ∧ validName s = true

def ScanInv (st : ScanState) : Prop :=
  pairValid st.lastIdentMac st.lastIdent ∧
  pairValid st.parenCandMac st.parenCand ∧
  pairValid st.pendingMac st.pendingName ∧
  (∀ n ∈ st.macroNamedDefs, validName n = true) ∧
  (∀ n ∈ st.macroTemplateDefs, validName n = true)

theorem pairValid_none (o : Option String) : pairValid none o := by
  intro hc
  simp at hc

theorem valid_append_single (l : List String) (a : String)
    (hl : ∀ n ∈ l, validName n = true) (ha : validName a = true) :
    ∀ n ∈ l ++ [a], validName n = true := by
  intro n hn
  rcases List.mem_append.mp hn with hm | hm
  · exact hl n hm
  · exact (List.mem_singleton.mp hm) ▸ ha

/-- Invariant carried across one scanner step: a continuing state satisfies
`ScanInv`, and a finished output has only render-accepted names in its
macro-named and macro-template lists. -/
def stepOK : StepRes → Prop
  | StepRes.done o =>
    (∀ n ∈ o.macroNamedDefs, validName n = true) ∧
    (∀ n ∈ o.macroTemplateDefs, validName n = true)
  | StepRes.cont st2 _ => ScanInv st2

theorem identFallback_ok (st0 : ScanState) (ident : String) (after : List Char)
    (h : ScanInv st0) : stepOK (identFallback st0 ident after) := by
  obtain ⟨_, h2, h3, h4, h5⟩ := h
  exact ⟨pairValid_none _, h2, h3, h4, h5⟩

theorem identExpnStep_ok (nm : String → Option (List TPart × List String))
    (st0 : ScanState) (ident : String) (after : List Char) (h : ScanInv st0) :
    stepOK (identExpnStep nm st0 ident after) := by
  obtain ⟨h1, h2, h3, h4, h5⟩ := h
  unfold identExpnStep
  split
  · split
    · split
      · split
        · split
          · next expanded hr =>
            refine ⟨?_, h2, h3, h4, h5⟩
            intro _
            exact ⟨expanded, rfl, render_valid _ _ _ hr⟩
          · exact identFallback_ok st0 ident after ⟨h1, h2, h3, h4, h5⟩
        · exact identFallback_ok st0 ident after ⟨h1, h2, h3, h4, h5⟩
      · exact identFallback_ok st0 ident after ⟨h1, h2, h3, h4, h5⟩
    · exact identFallback_ok st0 ident after ⟨h1, h2, h3, h4, h5⟩
  · exact identFallback_ok st0 ident after ⟨h1, h2, h3, h4, h5⟩

theorem identTmplStep_ok (tm nm : String → Option (List TPart × List String))
    (st0 : ScanState) (ident : String) (after : List Char) (h : ScanInv st0) :
    stepOK (identTmplStep tm nm st0 ident after) := by
  obtain ⟨h1, h2, h3, h4, h5⟩ := h
  unfold identTmplStep
  split
  · split
    · split
      · split
        · next args newRest =>
          dsimp only
          split
          · split
            · next nmr hr =>
              exact ⟨pairValid_none _, h2, h3, h4,
                valid_append_single _ _ h5 (render_valid _ _ _ hr)⟩
            · exact ⟨pairValid_none _, h2, h3, h4, h5⟩
          · exact ⟨pairValid_none _, h2, h3, h4, h5⟩
        · exact identExpnStep_ok nm st0 ident after ⟨h1, h2, h3, h4, h5⟩
      · exact identExpnStep_ok nm st0 ident after ⟨h1, h2, h3, h4, h5⟩
    · exact identExpnStep_ok nm st0 ident after ⟨h1, h2, h3, h4, h5⟩
  · exact identExpnStep_ok nm st0 ident after ⟨h1, h2, h3, h4, h5⟩

theorem identStep_ok (tm nm : String → Option (List TPart × List String))
    (st0 : ScanState) (c : Char) (rest : List Char) (h : ScanInv st0) :
    stepOK (identStep tm nm st0 c rest) := by
  obtain ⟨h1, h2, h3, h4, h5⟩ := h
  unfold identStep
  split
  · exact ⟨pairValid_none _, h2, h3, h4, h5⟩
  · split
    · split
      · exact ⟨pairValid_none _, pairValid_none _, pairValid_none _, h4, h5⟩
      · exact ⟨h1, h2, h3, h4, h5⟩
    · exact identTmplStep_ok tm nm _ _ _ ⟨h1, h2, h3, h4, h5⟩

theorem lbraceStep_ok (st0 : ScanState) (rest : List Char) (h : ScanInv st0) :
    stepOK (lbraceStep st0 rest) := by
  obtain ⟨h1, h2, h3, h4, h5⟩ := h
  unfold lbraceStep
  split
  · next s hpn =>
    split
    · refine ⟨pairValid_none _, pairValid_none _, pairValid_none _, ?_, h5⟩
      dsimp only
      split
      · next m hpm =>
        split
        · have hex := h3 (by rw [hpm]; rfl)
          obtain ⟨s2, hs2, hv2⟩ := hex
          rw [hpn] at hs2
          injection hs2 with hs3
          exact valid_append_single _ _ h4 (hs3 ▸ hv2)
        · exact h4
      · exact h4
    · exact ⟨h1, h2, h3, h4, h5⟩
  · exact ⟨h1, h2, h3, h4, h5⟩

theorem punctStep_ok (st0 : ScanState) (c : Char) (rest : List Char)
    (h : ScanInv st0) : stepOK (punctStep st0 c rest) := by
  obtain ⟨h1, h2, h3, h4, h5⟩ := h
  unfold punctStep
  split
  · split
    · exact ⟨h1, h1, h3, h4, h5⟩
    · exact ⟨h1, h2, h3, h4, h5⟩
  · split
    · split
      · split
        · exact ⟨h1, h2, h2, h4, h5⟩
        · exact ⟨h1, h2, h3, h4, h5⟩
      · exact ⟨h1, h2, h3, h4, h5⟩
    · split
      · exact ⟨h1, h2, h3, h4, h5⟩
      · split
        · split
          · exact ⟨h1, h2, h3, h4, h5⟩
          · exact ⟨h1, h2, h3, h4, h5⟩
        · split
          · exact lbraceStep_ok st0 rest ⟨h1, h2, h3, h4, h5⟩
          · split
            · split
              · exact ⟨h1, h2, h3, h4, h5⟩
              · exact ⟨h1, h2, h3, h4, h5⟩
            · split
              · exact ⟨pairValid_none _, pairValid_none _,
                  pairValid_none _, h4, h5⟩
              · exact ⟨h1, h2, h3, h4, h5⟩

theorem scanStep_ok (tm nm : String → Option (List TPart × List String))
    (st : ScanState) (cs : List Char) (h : ScanInv st) :
    stepOK (scanStep tm nm st cs) := by
  obtain ⟨h1, h2, h3, h4, h5⟩ := h
  unfold scanStep
  cases cs with
  | nil => exact ⟨h4, h5⟩
  | cons c rest =>
    dsimp only
    split
    · exact ⟨h1, h2, h3, h4, h5⟩
    · split
      · exact ⟨h1, h2, h3, h4, h5⟩
      · split
        · exact ⟨h1, h2, h3, h4, h5⟩
        · split
          · split
            · exact ⟨h4, h5⟩
            · exact ⟨h1, h2, h3, h4, h5⟩
          · split
            · exact ⟨h1, h2, h3, h4, h5⟩
            · split
              · exact identStep_ok tm nm _ c rest ⟨h1, h2, h3, h4, h5⟩
              · exact punctStep_ok _ c rest ⟨h1, h2, h3, h4, h5⟩

theorem scanAux_ok (tm nm : String → Option (List TPart × List String)) :
    ∀ (fuel : Nat) (st : ScanState) (cs : List Char), ScanInv st →
      (∀ n ∈ (scanAux tm nm fuel st cs).macroNamedDefs, validName n = true) ∧
      (∀ n ∈ (scanAux tm nm fuel st cs).macroTemplateDefs, validName n = true) := by
  intro fuel
  induction fuel with
  | zero =>
    intro st cs h
    exact ⟨h.2.2.2.1, h.2.2.2.2⟩
  | succ fuel ih =>
    intro st cs h
    have hstep := scanStep_ok tm nm st cs h
    cases hres : scanStep tm nm st cs with
    | done o =>
      rw [hres] at hstep
      simp only [scanAux, hres]
      exact hstep
    | cont st2 cs2 =>
      rw [hres] at hstep
      simp only [scanAux, hres]
      exact ih st2 cs2 hstep

theorem scan_valid (text : String) (macros : List MacroDef) :
    (∀ n ∈ (scan_function_definitions text macros).macroNamedDefs,
      validName n = true) ∧
    (∀ n ∈ (scan_function_definitions text macros).macroTemplateDefs,
      validName n = true) := by
  unfold scan_function_definitions
  apply scanAux_ok
  refine ⟨?_, ?_, ?_, ?_, ?_⟩ <;> simp [initState, pairValid]

/-- C3, amended: every name in the merged list either came verbatim from
the external parser list or is a render-accepted name — a well-formed
identifier matching `[A-Za-z_][A-Za-z0-9_]*` that is not one of the
reserved C keywords. External parser names themselves pass through the
merger unvalidated. -/
theorem c3_thm (text : String) (parserNames : List String) (n : String)
    (h : n ∈ resolve_function_list text parserNames) :
    n ∈ parserNames ∨ validName n = true := by
  have hc : countOcc n (resolve_function_list text parserNames) =
      countOcc n (mergeTargets text parserNames) := merge_count _ _ n
  have hpos : 0 < countOcc n (mergeTargets text parserNames) :=
    hc ▸ (countOcc_pos_iff n _).mp h
  have hmem : n ∈ mergeTargets text parserNames := (countOcc_pos_iff n _).mpr hpos
  unfold mergeTargets at hmem
  rcases List.mem_append.mp hmem with hm | hm
  · rcases List.mem_append.mp hm with hf | hnamed
    · left
      unfold filteredParserNames at hf
      exact (List.mem_filter.mp hf).1
    · right
      exact (scan_valid text (parse_macro_definitions text)).1 n hnamed
  · right
    exact (scan_valid text (parse_macro_definitions text)).2 n hm

/-- C3, witness for `c3_thm` at scenario S4 with an empty external list:
`my_init` is in the merged list and is a valid non-reserved identifier. -/
theorem c3_witness :
    "my_init" ∈ resolve_function_list s4Text [] ∧
    ("my_init" ∈ ([] : List String) ∨ validName "my_init" = true) :=
  ⟨by decide, c3_thm s4Text [] "my_init" (by decide)⟩

/-! ## C10: template-macro invocations with mismatched arity -/

theorem identStart_ne (c x : Char) (h : identStart c = true)
    (hx : identStart x = false) : ¬ c = x := by
  intro hc
  rw [hc, hx] at h
  exact Bool.false_ne_true h

theorem takeWhile_all_append (p : Char → Bool) (l r : List Char)
    (hl : ∀ a ∈ l, p a = true) (hr : ∀ d, r.head? = some d → p d = false) :
    (l ++ r).takeWhile p = l ∧ (l ++ r).dropWhile p = r := by
  induction l with
  | nil =>
    simp only [List.nil_append]
    cases r with
    | nil => exact ⟨rfl, rfl⟩
    | cons d rs =>
      have hd : p d = false := hr d rfl
      rw [List.takeWhile_cons, List.dropWhile_cons, hd]
      exact ⟨rfl, rfl⟩
  | cons a l ih =>
    have ha : p a = true := hl a (List.mem_cons_self a l)
    obtain ⟨ih1, ih2⟩ := ih (fun b hb => hl b (List.mem_cons_of_mem a hb))
    rw [List.cons_append, List.takeWhile_cons, List.dropWhile_cons, ha]
    simp only [if_true]
    exact ⟨by rw [ih1], by rw [ih2]⟩

/-- C10: when the scanner, at brace depth 0, meets an identifier bound to a
name-template macro, followed after optional whitespace by an argument list
that parses but whose arity differs from the macro's parameter count, the
step advances the cursor past the argument list, clears the
last-identifier state, and emits nothing (the output lists of the state
are untouched); consequently, when a `{` immediately follows the argument
list and no name is pending, the brace is entered without emitting
anything. -/
theorem c10_thm (tm nm : String → Option (List TPart × List String))
    (fuel : Nat) (st : ScanState) (c0 : Char) (tl rest : List Char)
    (tp : List TPart × List String) (args : List String) (newRest : List Char)
    (hc0 : identStart c0 = true)
    (htl : ∀ a ∈ tl, identCont a = true)
    (hrest : ∀ d, rest.head? = some d → identCont d = false)
    (hctrl : String.mk (c0 :: tl) ∉ CONTROL_KEYWORDS)
    (hdecl : String.mk (c0 :: tl) ∉ DECL_KEYWORDS)
    (htm : tm (String.mk (c0 :: tl)) = some tp)
    (hbrace : st.braceDepth = 0)
    (hhead : (rest.dropWhile pySpace).head? = some '(')
    (hparse : parse_macro_args (rest.dropWhile pySpace) = (some args, newRest))
    (harity : ¬ args.length = tp.2.length) :
    scanAux tm nm (fuel + 1) st (c0 :: (tl ++ rest)) =
      scanAux tm nm fuel
        { st with atLineStart := false, lastIdent := none, lastIdentMac := none }
        newRest ∧
    (∀ tail, newRest = lbrace :: tail → st.pendingName = none →
      st.parenDepth = 0 → st.bracketDepth = 0 →
      scanAux tm nm (fuel + 2) st (c0 :: (tl ++ rest)) =
        scanAux tm nm fuel
          { st with
            atLineStart := false, lastIdent := none,
            lastIdentMac := none, braceDepth := 1 } tail) := by
  have hsp : spaceTab c0 = false := by
    have h1 : ¬ c0 = ' ' := identStart_ne c0 ' ' hc0 (by decide)
    have h2 : ¬ c0 = '\t' := identStart_ne c0 '\t' hc0 (by decide)
    simp [spaceTab, h1, h2]
  have hdw : (c0 :: (tl ++ rest)).dropWhile spaceTab = c0 :: (tl ++ rest) := by
    rw [List.dropWhile_cons, hsp]
    simp
  have hspan := takeWhile_all_append identCont tl rest htl hrest
  have hcond1 : ¬ (st.atLineStart = true ∧
      ((c0 :: (tl ++ rest)).dropWhile spaceTab).head? = some '#') := by
    rw [hdw]
    intro hcon
    exact identStart_ne c0 '#' hc0 (by decide) (by simpa using hcon.2)
  have hstep : scanStep tm nm st (c0 :: (tl ++ rest)) =
      StepRes.cont
        { st with atLineStart := false, lastIdent := none, lastIdentMac := none }
        newRest := by
    unfold scanStep
    dsimp only
    rw [if_neg hcond1,
      if_neg (identStart_ne c0 '\n' hc0 (by decide)),
      if_neg (fun h => identStart_ne c0 '/' hc0 (by decide) h.1),
      if_neg (fun h => identStart_ne c0 '/' hc0 (by decide) h.1),
      if_neg (fun h => h.elim (identStart_ne c0 squote hc0 (by decide))
        (identStart_ne c0 dquote hc0 (by decide))),
      if_pos hc0]
    unfold identStep
    rw [hspan.1, hspan.2, if_neg hctrl, if_neg hdecl]
    unfold identTmplStep
    rw [htm]
    dsimp only
    rw [if_pos hbrace, if_pos hhead, hparse]
    dsimp only
    rw [if_neg harity]
  constructor
  · show scanAux tm nm (fuel + 1) st (c0 :: (tl ++ rest)) = _
    simp only [scanAux, hstep]
  · intro tail htail hpend hpar hbrk
    subst htail
    have hstep2 : scanStep tm nm
        { st with atLineStart := false, lastIdent := none, lastIdentMac := none }
        (lbrace :: tail) =
        StepRes.cont
          { st with
            atLineStart := false, lastIdent := none,
            lastIdentMac := none, braceDepth := st.braceDepth + 1 } tail := by
      unfold scanStep
      dsimp only
      rw [if_neg (fun hcon => Bool.false_ne_true hcon.1),
        if_neg (show ¬ lbrace = '\n' by decide),
        if_neg (fun h => (show ¬ lbrace = '/' by decide) h.1),
        if_neg (fun h => (show ¬ lbrace = '/' by decide) h.1),
        if_neg (fun h => h.elim (show ¬ lbrace = squote by decide)
          (show ¬ lbrace = dquote by decide)),
        if_neg (show ¬ identStart lbrace = true by decide)]
      unfold punctStep
      rw [if_neg (show ¬ lbrace = '(' by decide),
        if_neg (show ¬ lbrace = ')' by decide),
        if_neg (show ¬ lbrace = '[' by decide),
        if_neg (show ¬ lbrace = ']' by decide),
        if_pos rfl]
      unfold lbraceStep
      dsimp only
      rw [hpend]
    show scanAux tm nm (fuel + 1 + 1) st (c0 :: (tl ++ rest)) = _
    simp only [scanAux, hstep, hstep2]
    rw [hbrace]

/-- A file defining the name-template macro `G` (body
`int a##b(void) { }`) that `c10_witness` invokes with the wrong arity. -/
def c10Text : String := "#define G(a,b) int a##b(void) \x7b \x7d"

/-- C10, witness for `c10_thm`: scanning `G(x){` with `G` a two-parameter
name-template macro — the one-argument invocation is skipped (cursor past
the argument list, last identifier cleared, nothing emitted) and the
following `{` merely enters the brace. -/
theorem c10_witness :
    parse_macro_args ("(x)\x7b".data) = (some ["x"], [lbrace]) ∧
    (buildTemplateMap (parse_macro_definitions c10Text)) "G" =
      some ([(PKind.param, "a"), (PKind.param, "b")], ["a", "b"]) ∧
    scanAux (buildTemplateMap (parse_macro_definitions c10Text))
        (buildNameMap (parse_macro_definitions c10Text)) 2 initState
        ("G(x)\x7b".data) =
      scanAux (buildTemplateMap (parse_macro_definitions c10Text))
        (buildNameMap (parse_macro_definitions c10Text)) 1
        { initState with
          atLineStart := false, lastIdent := none, lastIdentMac := none }
        [lbrace] ∧
    scanAux (buildTemplateMap (parse_macro_definitions c10Text))
        (buildNameMap (parse_macro_definitions c10Text)) 3 initState
        ("G(x)\x7b".data) =
      scanAux (buildTemplateMap (parse_macro_definitions c10Text))
        (buildNameMap (parse_macro_definitions c10Text)) 1
        { initState with
          atLineStart := false, lastIdent := none, lastIdentMac := none,
          braceDepth := 1 }
        [] := by
  have h := c10_thm (buildTemplateMap (parse_macro_definitions c10Text))
    (buildNameMap (parse_macro_definitions c10Text)) 1 initState 'G' []
    ("(x)\x7b".data) ([(PKind.param, "a"), (PKind.param, "b")], ["a", "b"])
    ["x"] [lbrace]
    (by decide)
    (by simp)
    (by
      intro d hd
      have hd2 : some '(' = some d := hd
      injection hd2 with hd3
      subst hd3
      decide)
    (by decide)
    (by decide)
    (by decide)
    rfl
    (by decide)
    (by decide)
    (by decide)
  exact ⟨by decide, by decide, h.1, h.2 [] rfl rfl rfl rfl⟩
